import Mathlib

/-!
Shallow embedding of the `BatchAnonymizerEngine` convenience layer from
`docs/samples/python/batch_processing.ipynb` (functions `anonymize_list` and
`anonymize_dict`), together with theorems settling the specification claims
about it.

The external single-text anonymizer (`AnonymizerEngine.anonymize`, inherited
by `BatchAnonymizerEngine`) is an external collaborator: every definition is
parametric in a function `anon : String → List RecognizerResult → String`
standing for `self.anonymize(text, analyzer_results).text` (the auxiliary
metadata of the returned `EngineResult` is unused by this layer).  A second
family of definitions is parametric in a fallible
`anonE : String → List RecognizerResult → Except ε String`, modelling the
fact that the Python call may raise; `Except` propagation mirrors Python
exception propagation through the traversal loops.
-/

namespace Presidio

/-- One detection span, mirroring `presidio_analyzer.RecognizerResult`
(`entity_type`, `start`, `end`, `score`).  The Python field `end` is a Lean
keyword and is called `end_char` here; the float confidence `score` is
modelled as a rational.  This layer never inspects these fields: spans are
carried opaquely to the external anonymizer. -/
structure RecognizerResult where
  entity_type : String
  start : Nat
  end_char : Nat
  score : Rat

/-- A Python runtime value as it can occur in the notebook's traversal: the
four scalar types checked by `type(text) in (str, bool, int, float)`, the
container shapes dispatched on by `anonymize_dict` (`dict`, `str`, generic
iterables: lists and sets), and `null` for any other non-iterable value
(e.g. Python `None`).  A `set` carries its iteration order as a list; a
Python float is modelled as a rational. -/
inductive Value where
  | str (s : String)
  | bool (b : Bool)
  | int (n : Int)
  | float (q : Rat)
  | list (xs : List Value)
  | set (xs : List Value)
  | dict (entries : List (String × Value))
  | null

/-- Python `str(text)` for the four scalar types that `anonymize_list` feeds
to the anonymizer (`str(True) = "True"`, `str(1) = "1"`, ...).  Python's
float-to-string rendering is abstracted by `Rat`'s `toString`; no claim
depends on the exact text of a float.  On non-scalar values this function is
never reached by the code and returns a placeholder. -/
def pyStr : Value → String
  | .str s => s
  | .bool b => if b then "True" else "False"
  | .int n => toString n
  | .float q => toString q
  | _ => ""

/-- The body of the `anonymize_list` loop for one element: if
`type(text) in (str, bool, int, float)` the text is rendered with `str` and
sent to the external anonymizer, and the anonymized *string* is kept;
otherwise the original value passes through unchanged. -/
def anonymize_leaf (anon : String → List RecognizerResult → String)
    (text : Value) (recognizer_results : List RecognizerResult) : Value :=
  match text with
  | .str _ | .bool _ | .int _ | .float _ =>
      Value.str (anon (pyStr text) recognizer_results)
  | v => v

/-- `BatchAnonymizerEngine.anonymize_list`.  An empty (falsy)
`recognizer_results_list` is replaced by `[[] for _ in range(len(texts))]`;
then the loop runs over `zip(texts, recognizer_results_list)`, which — as in
Python — truncates to the shorter of the two sequences. -/
def anonymize_list (anon : String → List RecognizerResult → String)
    (texts : List Value)
    (recognizer_results_list : List (List RecognizerResult)) : List Value :=
  let rrl := if recognizer_results_list.isEmpty
    then List.replicate texts.length ([] : List RecognizerResult)
    else recognizer_results_list
  (texts.zip rrl).map (fun p => anonymize_leaf anon p.1 p.2)

mutual

/-- `presidio_analyzer.DictAnalyzerResult`: one annotated node, carrying a
`key`, a `value`, and `recognizer_results` whose dynamic shape depends on the
value: a flat span list for a scalar value, a list of per-element span lists
for a sequence value, and a further iterable of `DictAnalyzerResult` for a
nested-dict value. -/
inductive DictAnalyzerResult where
  | mk (key : String) (value : Value) (recognizer_results : AnalyzerResults)

/-- The dynamic type of `DictAnalyzerResult.recognizer_results` in the
notebook, as a tagged union of the three shapes the analyzer produces. -/
inductive AnalyzerResults where
  | spans (rs : List RecognizerResult)
  | spansList (rss : List (List RecognizerResult))
  | nested (nodes : List DictAnalyzerResult)

end

def DictAnalyzerResult.key : DictAnalyzerResult → String
  | .mk k _ _ => k

def DictAnalyzerResult.value : DictAnalyzerResult → Value
  | .mk _ v _ => v

def DictAnalyzerResult.recognizer_results : DictAnalyzerResult → AnalyzerResults
  | .mk _ _ rr => rr

/-- View `recognizer_results` as the flat span list the string branch of
`anonymize_dict` passes to `self.anonymize`.  On the other shapes Python
would fail dynamically inside the external engine; the analyzer never
produces such misaligned nodes, and we default to the empty span list. -/
def AnalyzerResults.asSpans : AnalyzerResults → List RecognizerResult
  | .spans rs => rs
  | _ => []

/-- View `recognizer_results` as the per-element span lists the iterable
branch of `anonymize_dict` passes to `anonymize_list`; same convention as
`AnalyzerResults.asSpans` for misaligned shapes. -/
def AnalyzerResults.asSpansList : AnalyzerResults → List (List RecognizerResult)
  | .spansList rss => rss
  | _ => []

/-- `BatchAnonymizerEngine.anonymize_dict`.  The loop dispatches on the
runtime type of `result.value`, in source order: `isinstance(value, dict)`
first (recurse on the node's nested results), then `isinstance(value, str)`
(whole string to the single-text anonymizer), then
`isinstance(value, collections.abc.Iterable)` (delegate to `anonymize_list`;
both lists and sets take this branch and a *list* is stored), else the value
is stored unchanged.  A dict value whose results are not nested nodes would
make Python fail dynamically while iterating; the analyzer never produces
it, and we store the dict of no entries.  Insertion into `return_dict`
follows iteration order, modelled as an association list. -/
def anonymize_dict (anon : String → List RecognizerResult → String) :
    List DictAnalyzerResult → List (String × Value)
  | [] => []
  | .mk key (.dict _) (.nested nodes) :: rest =>
      (key, Value.dict (anonymize_dict anon nodes)) :: anonymize_dict anon rest
  | .mk key (.dict _) _ :: rest =>
      (key, Value.dict []) :: anonymize_dict anon rest
  | .mk key (.str s) rr :: rest =>
      (key, Value.str (anon s rr.asSpans)) :: anonymize_dict anon rest
  | .mk key (.list xs) rr :: rest =>
      (key, Value.list (anonymize_list anon xs rr.asSpansList)) :: anonymize_dict anon rest
  | .mk key (.set xs) rr :: rest =>
      (key, Value.list (anonymize_list anon xs rr.asSpansList)) :: anonymize_dict anon rest
  | .mk key v _ :: rest =>
      (key, v) :: anonymize_dict anon rest

/-! ### Fail-fast model

The same two functions, with the external anonymizer allowed to raise:
`anonE s rs = .error e` models `self.anonymize` raising exception `e` on
leaf text `s`.  `Except` sequencing mirrors Python: the loops below stop at
the first raising call and the exception propagates to the caller, so a call
either returns a complete result (`.ok`) or an exception (`.error`) — there
is no partial-result channel. -/

/-- Fail-fast version of the `anonymize_list` loop body. -/
def anonymize_leafE {ε : Type u} (anonE : String → List RecognizerResult → Except ε String)
    (text : Value) (recognizer_results : List RecognizerResult) : Except ε Value :=
  match text with
  | .str _ | .bool _ | .int _ | .float _ =>
      Except.map Value.str (anonE (pyStr text) recognizer_results)
  | v => Except.ok v

/-- The `anonymize_list` `for` loop over the zipped pairs, appending one
result per iteration; an exception aborts the loop. -/
def anonymize_pairsE {ε : Type u} (anonE : String → List RecognizerResult → Except ε String) :
    List (Value × List RecognizerResult) → Except ε (List Value)
  | [] => Except.ok []
  | p :: ps => do
      let v ← anonymize_leafE anonE p.1 p.2
      let vs ← anonymize_pairsE anonE ps
      Except.ok (v :: vs)

/-- Fail-fast `BatchAnonymizerEngine.anonymize_list`. -/
def anonymize_listE {ε : Type u} (anonE : String → List RecognizerResult → Except ε String)
    (texts : List Value)
    (recognizer_results_list : List (List RecognizerResult)) : Except ε (List Value) :=
  let rrl := if recognizer_results_list.isEmpty
    then List.replicate texts.length ([] : List RecognizerResult)
    else recognizer_results_list
  anonymize_pairsE anonE (texts.zip rrl)

/-- Fail-fast `BatchAnonymizerEngine.anonymize_dict`: same dispatch as
`anonymize_dict`, with exceptions from the external anonymizer (directly or
through recursive calls) aborting the loop. -/
def anonymize_dictE {ε : Type u} (anonE : String → List RecognizerResult → Except ε String) :
    List DictAnalyzerResult → Except ε (List (String × Value))
  | [] => Except.ok []
  | .mk key (.dict _) (.nested nodes) :: rest => do
      let v ← anonymize_dictE anonE nodes
      let r ← anonymize_dictE anonE rest
      Except.ok ((key, Value.dict v) :: r)
  | .mk key (.dict _) _ :: rest => do
      let r ← anonymize_dictE anonE rest
      Except.ok ((key, Value.dict []) :: r)
  | .mk key (.str s) rr :: rest => do
      let t ← anonE s rr.asSpans
      let r ← anonymize_dictE anonE rest
      Except.ok ((key, Value.str t) :: r)
  | .mk key (.list xs) rr :: rest => do
      let v ← anonymize_listE anonE xs rr.asSpansList
      let r ← anonymize_dictE anonE rest
      Except.ok ((key, Value.list v) :: r)
  | .mk key (.set xs) rr :: rest => do
      let v ← anonymize_listE anonE xs rr.asSpansList
      let r ← anonymize_dictE anonE rest
      Except.ok ((key, Value.list v) :: r)
  | .mk key v _ :: rest => do
      let r ← anonymize_dictE anonE rest
      Except.ok ((key, v) :: r)

/-- The per-node value transform of `anonymize_dict`, factored out so the
loop can be described as a `map` over the nodes. -/
def anonymize_node_value (anon : String → List RecognizerResult → String) :
    DictAnalyzerResult → Value
  | .mk _ (.dict _) (.nested nodes) => Value.dict (anonymize_dict anon nodes)
  | .mk _ (.dict _) _ => Value.dict []
  | .mk _ (.str s) rr => Value.str (anon s rr.asSpans)
  | .mk _ (.list xs) rr => Value.list (anonymize_list anon xs rr.asSpansList)
  | .mk _ (.set xs) rr => Value.list (anonymize_list anon xs rr.asSpansList)
  | .mk _ v _ => v

/-! ### Success and failure predicates for the fail-fast model -/

/-- Does the loop body succeed on this element?  `false` exactly when the
external anonymizer raises on it. -/
def leafOk {ε : Type u} (anonE : String → List RecognizerResult → Except ε String)
    (text : Value) (rrs : List RecognizerResult) : Bool :=
  match anonymize_leafE anonE text rrs with
  | .ok _ => true
  | .error _ => false

/-- Does every element of the zipped list succeed? -/
def pairsOk {ε : Type u} (anonE : String → List RecognizerResult → Except ε String) :
    List (Value × List RecognizerResult) → Bool
  | [] => true
  | p :: ps => leafOk anonE p.1 p.2 && pairsOk anonE ps

/-- Does every leaf processed by `anonymize_listE` succeed? -/
def listOk {ε : Type u} (anonE : String → List RecognizerResult → Except ε String)
    (texts : List Value) (recognizer_results_list : List (List RecognizerResult)) : Bool :=
  pairsOk anonE (texts.zip (if recognizer_results_list.isEmpty
    then List.replicate texts.length [] else recognizer_results_list))

/-- Does every leaf processed by `anonymize_dictE` (recursively) succeed? -/
def dictOk {ε : Type u} (anonE : String → List RecognizerResult → Except ε String) :
    List DictAnalyzerResult → Bool
  | [] => true
  | .mk _ (.dict _) (.nested nodes) :: rest => dictOk anonE nodes && dictOk anonE rest
  | .mk _ (.dict _) _ :: rest => dictOk anonE rest
  | .mk _ (.str s) rr :: rest =>
      (match anonE s rr.asSpans with | .ok _ => true | .error _ => false) && dictOk anonE rest
  | .mk _ (.list xs) rr :: rest => listOk anonE xs rr.asSpansList && dictOk anonE rest
  | .mk _ (.set xs) rr :: rest => listOk anonE xs rr.asSpansList && dictOk anonE rest
  | _ :: rest => dictOk anonE rest

/-- The external anonymizer raises `e` on some element of the zipped list. -/
def pairsRaise {ε : Type u} (anonE : String → List RecognizerResult → Except ε String)
    (e : ε) (ps : List (Value × List RecognizerResult)) : Prop :=
  ∃ p ∈ ps, anonymize_leafE anonE p.1 p.2 = Except.error e

/-- The external anonymizer raises `e` on some leaf processed by
`anonymize_listE`. -/
def listRaises {ε : Type u} (anonE : String → List RecognizerResult → Except ε String)
    (e : ε) (texts : List Value)
    (recognizer_results_list : List (List RecognizerResult)) : Prop :=
  pairsRaise anonE e (texts.zip (if recognizer_results_list.isEmpty
    then List.replicate texts.length [] else recognizer_results_list))

/-- The external anonymizer raises `e` on some leaf reached (recursively) by
`anonymize_dictE`. -/
def dictRaises {ε : Type u} (anonE : String → List RecognizerResult → Except ε String)
    (e : ε) : List DictAnalyzerResult → Prop
  | [] => False
  | .mk _ (.dict _) (.nested nodes) :: rest => dictRaises anonE e nodes ∨ dictRaises anonE e rest
  | .mk _ (.dict _) _ :: rest => dictRaises anonE e rest
  | .mk _ (.str s) rr :: rest => anonE s rr.asSpans = Except.error e ∨ dictRaises anonE e rest
  | .mk _ (.list xs) rr :: rest => listRaises anonE e xs rr.asSpansList ∨ dictRaises anonE e rest
  | .mk _ (.set xs) rr :: rest => listRaises anonE e xs rr.asSpansList ∨ dictRaises anonE e rest
  | _ :: rest => dictRaises anonE e rest

/-! ### Helper lemmas -/

theorem anonymize_list_eq_map (anon : String → List RecognizerResult → String)
    (texts : List Value) (rrl : List (List RecognizerResult)) :
    anonymize_list anon texts rrl =
      (texts.zip (if rrl.isEmpty then List.replicate texts.length [] else rrl)).map
        (fun p => anonymize_leaf anon p.1 p.2) := rfl

theorem anonymize_list_length_of_ne (anon : String → List RecognizerResult → String)
    (texts : List Value) (rrl : List (List RecognizerResult)) (hne : rrl ≠ []) :
    (anonymize_list anon texts rrl).length = min texts.length rrl.length := by
  have hE : (if rrl.isEmpty then List.replicate texts.length ([] : List RecognizerResult)
      else rrl) = rrl := by
    simp [List.isEmpty_iff, hne]
  rw [anonymize_list_eq_map, hE]
  simp

theorem anonymize_list_length_of_empty (anon : String → List RecognizerResult → String)
    (texts : List Value) :
    (anonymize_list anon texts []).length = texts.length := by
  rw [anonymize_list_eq_map]
  simp

theorem anonymize_list_getElem_of_ne (anon : String → List RecognizerResult → String)
    (texts : List Value) (rrl : List (List RecognizerResult)) (i : Nat)
    (hne : rrl ≠ []) (hi : i < texts.length) (hr : i < rrl.length) :
    (anonymize_list anon texts rrl)[i]? =
      some (anonymize_leaf anon (texts.getD i Value.null) (rrl.getD i [])) := by
  have hE : (if rrl.isEmpty then List.replicate texts.length ([] : List RecognizerResult)
      else rrl) = rrl := by
    simp [List.isEmpty_iff, hne]
  have hz : i < (texts.zip rrl).length := by
    simp [List.length_zip]; omega
  rw [anonymize_list_eq_map, hE]
  rw [List.getElem?_map, List.getElem?_eq_getElem hz]
  simp only [Option.map_some']
  rw [List.getElem_zip, List.getD_eq_getElem _ _ hi, List.getD_eq_getElem _ _ hr]

theorem anonymize_list_getElem_of_empty (anon : String → List RecognizerResult → String)
    (texts : List Value) (i : Nat) (hi : i < texts.length) :
    (anonymize_list anon texts [])[i]? =
      some (anonymize_leaf anon (texts.getD i Value.null) []) := by
  have hz : i < (texts.zip (List.replicate texts.length ([] : List RecognizerResult))).length := by
    simp [List.length_zip]; omega
  have hE : (if ([] : List (List RecognizerResult)).isEmpty then
      List.replicate texts.length ([] : List RecognizerResult) else []) =
      List.replicate texts.length ([] : List RecognizerResult) := rfl
  rw [anonymize_list_eq_map, hE]
  rw [List.getElem?_map, List.getElem?_eq_getElem hz]
  simp only [Option.map_some']
  rw [List.getElem_zip, List.getD_eq_getElem _ _ hi]
  simp [List.getElem_replicate]

theorem anonymize_pairsE_pure {ε : Type u} (anon : String → List RecognizerResult → String)
    (ps : List (Value × List RecognizerResult)) :
    anonymize_pairsE (ε := ε) (fun s rs => Except.ok (anon s rs)) ps =
      Except.ok (ps.map (fun p => anonymize_leaf anon p.1 p.2)) := by
  induction ps with
  | nil => rfl
  | cons p ps ih =>
      obtain ⟨t, rs⟩ := p
      show (do
        let v ← anonymize_leafE (fun s rs => Except.ok (anon s rs)) t rs
        let vs ← anonymize_pairsE (fun s rs => Except.ok (anon s rs)) ps
        Except.ok (v :: vs)) = _
      rw [ih]
      cases t <;> rfl

theorem anonymize_listE_pure {ε : Type u} (anon : String → List RecognizerResult → String)
    (texts : List Value) (rrl : List (List RecognizerResult)) :
    anonymize_listE (ε := ε) (fun s rs => Except.ok (anon s rs)) texts rrl =
      Except.ok (anonymize_list anon texts rrl) := by
  simp [anonymize_listE, anonymize_list, anonymize_pairsE_pure]

theorem anonymize_leafE_total {ε : Type u}
    (anonE : String → List RecognizerResult → Except ε String)
    (h : ∀ s rs, ∃ t, anonE s rs = Except.ok t) (text : Value)
    (rrs : List RecognizerResult) :
    ∃ v, anonymize_leafE anonE text rrs = Except.ok v := by
  cases text with
  | str s =>
      obtain ⟨t, ht⟩ := h (pyStr (Value.str s)) rrs
      exact ⟨Value.str t, (congrArg (Except.map Value.str) ht).trans rfl⟩
  | bool b =>
      obtain ⟨t, ht⟩ := h (pyStr (Value.bool b)) rrs
      exact ⟨Value.str t, (congrArg (Except.map Value.str) ht).trans rfl⟩
  | int n =>
      obtain ⟨t, ht⟩ := h (pyStr (Value.int n)) rrs
      exact ⟨Value.str t, (congrArg (Except.map Value.str) ht).trans rfl⟩
  | float q =>
      obtain ⟨t, ht⟩ := h (pyStr (Value.float q)) rrs
      exact ⟨Value.str t, (congrArg (Except.map Value.str) ht).trans rfl⟩
  | list xs => exact ⟨Value.list xs, rfl⟩
  | set xs => exact ⟨Value.set xs, rfl⟩
  | dict entries => exact ⟨Value.dict entries, rfl⟩
  | null => exact ⟨Value.null, rfl⟩

theorem anonymize_pairsE_total {ε : Type u}
    (anonE : String → List RecognizerResult → Except ε String)
    (h : ∀ s rs, ∃ t, anonE s rs = Except.ok t)
    (ps : List (Value × List RecognizerResult)) :
    ∃ vs, anonymize_pairsE anonE ps = Except.ok vs ∧ vs.length = ps.length := by
  induction ps with
  | nil => exact ⟨[], rfl, rfl⟩
  | cons p ps ih =>
      obtain ⟨vs, hvs, hlen⟩ := ih
      obtain ⟨v, hv⟩ := anonymize_leafE_total anonE h p.1 p.2
      refine ⟨v :: vs, ?_, by simp [hlen]⟩
      show (do
        let v ← anonymize_leafE anonE p.1 p.2
        let vs ← anonymize_pairsE anonE ps
        Except.ok (v :: vs)) = _
      rw [hv, hvs]
      rfl

theorem anonymize_dict_eq_map (anon : String → List RecognizerResult → String)
    (nodes : List DictAnalyzerResult) :
    anonymize_dict anon nodes =
      nodes.map (fun r => (r.key, anonymize_node_value anon r)) := by
  induction nodes with
  | nil => simp [anonymize_dict]
  | cons r rest ih =>
      obtain ⟨key, v, rr⟩ := r
      cases v with
      | dict d =>
          cases rr with
          | nested sub =>
              simpa [anonymize_dict, anonymize_node_value, DictAnalyzerResult.key] using ih
          | spans rs =>
              simpa [anonymize_dict, anonymize_node_value, DictAnalyzerResult.key] using ih
          | spansList rss =>
              simpa [anonymize_dict, anonymize_node_value, DictAnalyzerResult.key] using ih
      | str s =>
          simpa [anonymize_dict, anonymize_node_value, DictAnalyzerResult.key] using ih
      | list xs =>
          simpa [anonymize_dict, anonymize_node_value, DictAnalyzerResult.key] using ih
      | set xs =>
          simpa [anonymize_dict, anonymize_node_value, DictAnalyzerResult.key] using ih
      | bool b =>
          simpa [anonymize_dict, anonymize_node_value, DictAnalyzerResult.key] using ih
      | int n =>
          simpa [anonymize_dict, anonymize_node_value, DictAnalyzerResult.key] using ih
      | float q =>
          simpa [anonymize_dict, anonymize_node_value, DictAnalyzerResult.key] using ih
      | null =>
          simpa [anonymize_dict, anonymize_node_value, DictAnalyzerResult.key] using ih

theorem leafOk_false_iff {ε : Type u}
    (anonE : String → List RecognizerResult → Except ε String)
    (text : Value) (rrs : List RecognizerResult) :
    leafOk anonE text rrs = false ↔
      ∃ e, anonymize_leafE anonE text rrs = Except.error e := by
  unfold leafOk
  cases h : anonymize_leafE anonE text rrs with
  | ok v => simp
  | error e => simp

theorem leafOk_true_iff {ε : Type u}
    (anonE : String → List RecognizerResult → Except ε String)
    (text : Value) (rrs : List RecognizerResult) :
    leafOk anonE text rrs = true ↔
      ∃ v, anonymize_leafE anonE text rrs = Except.ok v := by
  unfold leafOk
  cases h : anonymize_leafE anonE text rrs with
  | ok v => simp
  | error e => simp

theorem anonymize_pairsE_of_ok {ε : Type u}
    (anonE : String → List RecognizerResult → Except ε String)
    (ps : List (Value × List RecognizerResult)) (h : pairsOk anonE ps = true) :
    ∃ vs, anonymize_pairsE anonE ps = Except.ok vs := by
  induction ps with
  | nil => exact ⟨[], rfl⟩
  | cons p ps ih =>
      rw [pairsOk, Bool.and_eq_true] at h
      obtain ⟨v, hv⟩ := (leafOk_true_iff anonE p.1 p.2).mp h.1
      obtain ⟨vs, hvs⟩ := ih h.2
      refine ⟨v :: vs, ?_⟩
      show (do
        let v ← anonymize_leafE anonE p.1 p.2
        let vs ← anonymize_pairsE anonE ps
        Except.ok (v :: vs)) = _
      rw [hv, hvs]
      rfl

theorem anonymize_pairsE_of_fail {ε : Type u}
    (anonE : String → List RecognizerResult → Except ε String)
    (ps : List (Value × List RecognizerResult)) (h : pairsOk anonE ps = false) :
    ∃ e, anonymize_pairsE anonE ps = Except.error e ∧ pairsRaise anonE e ps := by
  induction ps with
  | nil => simp [pairsOk] at h
  | cons p ps ih =>
      cases hleaf : anonymize_leafE anonE p.1 p.2 with
      | error e₁ =>
          refine ⟨e₁, ?_, ⟨p, List.mem_cons_self p ps, hleaf⟩⟩
          show (do
            let v ← anonymize_leafE anonE p.1 p.2
            let vs ← anonymize_pairsE anonE ps
            Except.ok (v :: vs)) = _
          rw [hleaf]
          rfl
      | ok v =>
          have hhead : leafOk anonE p.1 p.2 = true :=
            (leafOk_true_iff anonE p.1 p.2).mpr ⟨v, hleaf⟩
          rw [pairsOk, hhead, Bool.true_and] at h
          obtain ⟨e, he, p₀, hp₀, hraise⟩ := ih h
          refine ⟨e, ?_, ⟨p₀, List.mem_cons_of_mem p hp₀, hraise⟩⟩
          show (do
            let v ← anonymize_leafE anonE p.1 p.2
            let vs ← anonymize_pairsE anonE ps
            Except.ok (v :: vs)) = _
          rw [hleaf, he]
          rfl

theorem anonymize_listE_of_ok {ε : Type u}
    (anonE : String → List RecognizerResult → Except ε String)
    (texts : List Value) (rrl : List (List RecognizerResult))
    (h : listOk anonE texts rrl = true) :
    ∃ vs, anonymize_listE anonE texts rrl = Except.ok vs :=
  anonymize_pairsE_of_ok anonE _ h

theorem anonymize_listE_of_fail {ε : Type u}
    (anonE : String → List RecognizerResult → Except ε String)
    (texts : List Value) (rrl : List (List RecognizerResult))
    (h : listOk anonE texts rrl = false) :
    ∃ e, anonymize_listE anonE texts rrl = Except.error e ∧
      listRaises anonE e texts rrl :=
  anonymize_pairsE_of_fail anonE _ h

theorem anonymize_dictE_of_ok {ε : Type u}
    (anonE : String → List RecognizerResult → Except ε String) :
    ∀ nodes : List DictAnalyzerResult, dictOk anonE nodes = true →
      ∃ d, anonymize_dictE anonE nodes = Except.ok d
  | [], _ => ⟨[], by simp [anonymize_dictE]⟩
  | .mk key (.dict ents) (.nested sub) :: rest, h => by
      rw [dictOk, Bool.and_eq_true] at h
      obtain ⟨dsub, hsub⟩ := anonymize_dictE_of_ok anonE sub h.1
      obtain ⟨drest, hrest⟩ := anonymize_dictE_of_ok anonE rest h.2
      refine ⟨(key, Value.dict dsub) :: drest, ?_⟩
      simp only [anonymize_dictE]
      rw [hsub, hrest]
      rfl
  | .mk key (.dict ents) (.spans rs) :: rest, h => by
      simp only [dictOk] at h
      obtain ⟨drest, hrest⟩ := anonymize_dictE_of_ok anonE rest h
      refine ⟨(key, Value.dict []) :: drest, ?_⟩
      simp only [anonymize_dictE]
      rw [hrest]
      rfl
  | .mk key (.dict ents) (.spansList rss) :: rest, h => by
      simp only [dictOk] at h
      obtain ⟨drest, hrest⟩ := anonymize_dictE_of_ok anonE rest h
      refine ⟨(key, Value.dict []) :: drest, ?_⟩
      simp only [anonymize_dictE]
      rw [hrest]
      rfl
  | .mk key (.str s) rr :: rest, h => by
      rw [dictOk, Bool.and_eq_true] at h
      obtain ⟨drest, hrest⟩ := anonymize_dictE_of_ok anonE rest h.2
      have h1 := h.1
      cases hstr : anonE s rr.asSpans with
      | error e => rw [hstr] at h1; simp at h1
      | ok t =>
          refine ⟨(key, Value.str t) :: drest, ?_⟩
          simp only [anonymize_dictE]
          rw [hstr, hrest]
          rfl
  | .mk key (.list xs) rr :: rest, h => by
      rw [dictOk, Bool.and_eq_true] at h
      obtain ⟨vs, hvs⟩ := anonymize_listE_of_ok anonE xs rr.asSpansList h.1
      obtain ⟨drest, hrest⟩ := anonymize_dictE_of_ok anonE rest h.2
      refine ⟨(key, Value.list vs) :: drest, ?_⟩
      simp only [anonymize_dictE]
      rw [hvs, hrest]
      rfl
  | .mk key (.set xs) rr :: rest, h => by
      rw [dictOk, Bool.and_eq_true] at h
      obtain ⟨vs, hvs⟩ := anonymize_listE_of_ok anonE xs rr.asSpansList h.1
      obtain ⟨drest, hrest⟩ := anonymize_dictE_of_ok anonE rest h.2
      refine ⟨(key, Value.list vs) :: drest, ?_⟩
      simp only [anonymize_dictE]
      rw [hvs, hrest]
      rfl
  | .mk key (.bool b) rr :: rest, h => by
      simp only [dictOk] at h
      obtain ⟨drest, hrest⟩ := anonymize_dictE_of_ok anonE rest h
      refine ⟨(key, Value.bool b) :: drest, ?_⟩
      simp only [anonymize_dictE]
      rw [hrest]
      rfl
  | .mk key (.int n) rr :: rest, h => by
      simp only [dictOk] at h
      obtain ⟨drest, hrest⟩ := anonymize_dictE_of_ok anonE rest h
      refine ⟨(key, Value.int n) :: drest, ?_⟩
      simp only [anonymize_dictE]
      rw [hrest]
      rfl
  | .mk key (.float q) rr :: rest, h => by
      simp only [dictOk] at h
      obtain ⟨drest, hrest⟩ := anonymize_dictE_of_ok anonE rest h
      refine ⟨(key, Value.float q) :: drest, ?_⟩
      simp only [anonymize_dictE]
      rw [hrest]
      rfl
  | .mk key .null rr :: rest, h => by
      simp only [dictOk] at h
      obtain ⟨drest, hrest⟩ := anonymize_dictE_of_ok anonE rest h
      refine ⟨(key, Value.null) :: drest, ?_⟩
      simp only [anonymize_dictE]
      rw [hrest]
      rfl

theorem anonymize_dictE_of_fail {ε : Type u}
    (anonE : String → List RecognizerResult → Except ε String) :
    ∀ nodes : List DictAnalyzerResult, dictOk anonE nodes = false →
      ∃ e, anonymize_dictE anonE nodes = Except.error e ∧ dictRaises anonE e nodes
  | [], h => by simp [dictOk] at h
  | .mk key (.dict ents) (.nested sub) :: rest, h => by
      cases hsub : dictOk anonE sub with
      | false =>
          obtain ⟨e, he, hraise⟩ := anonymize_dictE_of_fail anonE sub hsub
          refine ⟨e, ?_, ?_⟩
          · simp only [anonymize_dictE]
            rw [he]
            rfl
          · simp only [dictRaises]
            exact Or.inl hraise
      | true =>
          rw [dictOk, hsub, Bool.true_and] at h
          obtain ⟨dsub, hok⟩ := anonymize_dictE_of_ok anonE sub hsub
          obtain ⟨e, he, hraise⟩ := anonymize_dictE_of_fail anonE rest h
          refine ⟨e, ?_, ?_⟩
          · simp only [anonymize_dictE]
            rw [hok, he]
            rfl
          · simp only [dictRaises]
            exact Or.inr hraise
  | .mk key (.dict ents) (.spans rs) :: rest, h => by
      simp only [dictOk] at h
      obtain ⟨e, he, hraise⟩ := anonymize_dictE_of_fail anonE rest h
      refine ⟨e, ?_, ?_⟩
      · simp only [anonymize_dictE]
        rw [he]
        rfl
      · simpa [dictRaises] using hraise
  | .mk key (.dict ents) (.spansList rss) :: rest, h => by
      simp only [dictOk] at h
      obtain ⟨e, he, hraise⟩ := anonymize_dictE_of_fail anonE rest h
      refine ⟨e, ?_, ?_⟩
      · simp only [anonymize_dictE]
        rw [he]
        rfl
      · simpa [dictRaises] using hraise
  | .mk key (.str s) rr :: rest, h => by
      cases hstr : anonE s rr.asSpans with
      | error e =>
          refine ⟨e, ?_, ?_⟩
          · simp only [anonymize_dictE]
            rw [hstr]
            rfl
          · simp only [dictRaises]
            exact Or.inl hstr
      | ok t =>
          rw [dictOk, hstr] at h
          simp only [Bool.true_and] at h
          obtain ⟨e, he, hraise⟩ := anonymize_dictE_of_fail anonE rest h
          refine ⟨e, ?_, ?_⟩
          · simp only [anonymize_dictE]
            rw [hstr, he]
            rfl
          · simp only [dictRaises]
            exact Or.inr hraise
  | .mk key (.list xs) rr :: rest, h => by
      cases hlist : listOk anonE xs rr.asSpansList with
      | false =>
          obtain ⟨e, he, hraise⟩ := anonymize_listE_of_fail anonE xs rr.asSpansList hlist
          refine ⟨e, ?_, ?_⟩
          · simp only [anonymize_dictE]
            rw [he]
            rfl
          · simp only [dictRaises]
            exact Or.inl hraise
      | true =>
          rw [dictOk, hlist, Bool.true_and] at h
          obtain ⟨vs, hvs⟩ := anonymize_listE_of_ok anonE xs rr.asSpansList hlist
          obtain ⟨e, he, hraise⟩ := anonymize_dictE_of_fail anonE rest h
          refine ⟨e, ?_, ?_⟩
          · simp only [anonymize_dictE]
            rw [hvs, he]
            rfl
          · simp only [dictRaises]
            exact Or.inr hraise
  | .mk key (.set xs) rr :: rest, h => by
      cases hlist : listOk anonE xs rr.asSpansList with
      | false =>
          obtain ⟨e, he, hraise⟩ := anonymize_listE_of_fail anonE xs rr.asSpansList hlist
          refine ⟨e, ?_, ?_⟩
          · simp only [anonymize_dictE]
            rw [he]
            rfl
          · simp only [dictRaises]
            exact Or.inl hraise
      | true =>
          rw [dictOk, hlist, Bool.true_and] at h
          obtain ⟨vs, hvs⟩ := anonymize_listE_of_ok anonE xs rr.asSpansList hlist
          obtain ⟨e, he, hraise⟩ := anonymize_dictE_of_fail anonE rest h
          refine ⟨e, ?_, ?_⟩
          · simp only [anonymize_dictE]
            rw [hvs, he]
            rfl
          · simp only [dictRaises]
            exact Or.inr hraise
  | .mk key (.bool b) rr :: rest, h => by
      simp only [dictOk] at h
      obtain ⟨e, he, hraise⟩ := anonymize_dictE_of_fail anonE rest h
      refine ⟨e, ?_, ?_⟩
      · simp only [anonymize_dictE]
        rw [he]
        rfl
      · simpa [dictRaises] using hraise
  | .mk key (.int n) rr :: rest, h => by
      simp only [dictOk] at h
      obtain ⟨e, he, hraise⟩ := anonymize_dictE_of_fail anonE rest h
      refine ⟨e, ?_, ?_⟩
      · simp only [anonymize_dictE]
        rw [he]
        rfl
      · simpa [dictRaises] using hraise
  | .mk key (.float q) rr :: rest, h => by
      simp only [dictOk] at h
      obtain ⟨e, he, hraise⟩ := anonymize_dictE_of_fail anonE rest h
      refine ⟨e, ?_, ?_⟩
      · simp only [anonymize_dictE]
        rw [he]
        rfl
      · simpa [dictRaises] using hraise
  | .mk key .null rr :: rest, h => by
      simp only [dictOk] at h
      obtain ⟨e, he, hraise⟩ := anonymize_dictE_of_fail anonE rest h
      refine ⟨e, ?_, ?_⟩
      · simp only [anonymize_dictE]
        rw [he]
        rfl
      · simpa [dictRaises] using hraise

theorem anonymize_listE_eq {ε : Type u}
    (anonE : String → List RecognizerResult → Except ε String)
    (texts : List Value) (rrl : List (List RecognizerResult)) :
    anonymize_listE anonE texts rrl =
      anonymize_pairsE anonE (texts.zip (if rrl.isEmpty
        then List.replicate texts.length [] else rrl)) := rfl

/-! ### Claim theorems -/

/-- C1 (counterexample): the claim that `anonymize_list` fails with an
invalid-argument error whenever a non-empty span-collection sequence has a
different length than the value sequence is refuted at a concrete input:
with one text and two span collections, and a non-raising external
anonymizer, the fail-fast model returns a result (`Except.ok`), it does not
raise anything. -/
theorem mismatch_returns_result_cex :
    anonymize_listE (fun s _ => Except.ok (ε := Unit) s)
      [Value.str "a"] [[], []] = Except.ok [Value.str "a"] := rfl

/-- C1 (amended): a length mismatch is not rejected: whenever the external
anonymizer does not raise, `anonymize_list` called with a non-empty
span-collection sequence returns normally, with `min` of the two lengths
many elements (Python `zip` truncation). -/
theorem mismatch_no_error {ε : Type u}
    (anonE : String → List RecognizerResult → Except ε String)
    (h : ∀ s rs, ∃ t, anonE s rs = Except.ok t)
    (texts : List Value) (rrl : List (List RecognizerResult)) (hne : rrl ≠ []) :
    ∃ l, anonymize_listE anonE texts rrl = Except.ok l ∧
      l.length = min texts.length rrl.length := by
  have hE : (if rrl.isEmpty then List.replicate texts.length ([] : List RecognizerResult)
      else rrl) = rrl := by
    simp [List.isEmpty_iff, hne]
  obtain ⟨vs, hvs, hlen⟩ := anonymize_pairsE_total anonE h (texts.zip rrl)
  refine ⟨vs, ?_, ?_⟩
  · rw [anonymize_listE_eq, hE]
    exact hvs
  · rw [hlen]
    simp [List.length_zip]

/-- C1 (witness): the amended theorem applied at one text against two span
collections. -/
theorem mismatch_no_error_witness :
    ∃ l, anonymize_listE (fun s _ => Except.ok (ε := Unit) s)
      [Value.str "a"] [[], []] = Except.ok l ∧ l.length = min 1 2 :=
  mismatch_no_error (fun s _ => Except.ok s) (fun s _ => ⟨s, rfl⟩)
    [Value.str "a"] [[], []] (by simp)

/-- C2 (counterexample): a non-string leaf is not passed through unchanged
by `anonymize_list`: for the integer leaf `1` (with an anonymizer that is
the identity here), the output position holds the *string* "1", which is not
the input value. -/
theorem int_leaf_not_preserved_cex :
    anonymize_list (fun s _ => s) [Value.int 1] [] = [Value.str "1"] ∧
      Value.str "1" ≠ Value.int 1 :=
  ⟨rfl, fun h => Value.noConfusion h⟩

/-- C2 (amended): in `anonymize_list`, boolean, integer and float leaves are
*not* preserved: they are rendered with `str()` and sent through the
anonymizer, so the output position holds a string; only values outside
`{str, bool, int, float}` pass through unchanged.  At the top level of
`anonymize_dict`, however, non-string non-iterable scalars (booleans,
integers, floats) do pass through unchanged, with the same value and type. -/
theorem scalar_leaf_string_coercion (anon : String → List RecognizerResult → String) :
    (∀ b rs, anonymize_leaf anon (Value.bool b) rs =
        Value.str (anon (pyStr (Value.bool b)) rs))
    ∧ (∀ n rs, anonymize_leaf anon (Value.int n) rs =
        Value.str (anon (pyStr (Value.int n)) rs))
    ∧ (∀ q rs, anonymize_leaf anon (Value.float q) rs =
        Value.str (anon (pyStr (Value.float q)) rs))
    ∧ (∀ xs rs, anonymize_leaf anon (Value.list xs) rs = Value.list xs)
    ∧ (∀ rs, anonymize_leaf anon Value.null rs = Value.null)
    ∧ (∀ key b rr rest, anonymize_dict anon (.mk key (Value.bool b) rr :: rest) =
        (key, Value.bool b) :: anonymize_dict anon rest)
    ∧ (∀ key n rr rest, anonymize_dict anon (.mk key (Value.int n) rr :: rest) =
        (key, Value.int n) :: anonymize_dict anon rest)
    ∧ (∀ key q rr rest, anonymize_dict anon (.mk key (Value.float q) rr :: rest) =
        (key, Value.float q) :: anonymize_dict anon rest) := by
  refine ⟨fun b rs => rfl, fun n rs => rfl, fun q rs => rfl, fun xs rs => rfl,
    fun rs => rfl, ?_, ?_, ?_⟩ <;>
    · intro key x rr rest
      simp [anonymize_dict]

/-- C3: with a span-collection sequence that is empty or of the same length
as the value sequence, `anonymize_list` returns a list of the same length as
the value sequence, whose element at every position `i` is the leaf
transform of the input element at position `i`, paired with that position's
span collection (empty when none were supplied). -/
theorem anonymize_list_shape (anon : String → List RecognizerResult → String)
    (texts : List Value) (rrl : List (List RecognizerResult))
    (h : rrl = [] ∨ rrl.length = texts.length) :
    (anonymize_list anon texts rrl).length = texts.length ∧
    ∀ i : Nat, i < texts.length →
      (anonymize_list anon texts rrl)[i]? =
        some (anonymize_leaf anon (texts.getD i Value.null)
          (if rrl.isEmpty then [] else rrl.getD i [])) := by
  rcases eq_or_ne rrl [] with he | hne
  · subst he
    refine ⟨anonymize_list_length_of_empty anon texts, ?_⟩
    intro i hi
    rw [anonymize_list_getElem_of_empty anon texts i hi]
    simp
  · have hlen : rrl.length = texts.length := by
      rcases h with h | h
      · exact absurd h hne
      · exact h
    have hE : rrl.isEmpty = false := by simp [List.isEmpty_iff, hne]
    refine ⟨?_, ?_⟩
    · rw [anonymize_list_length_of_ne anon texts rrl hne, hlen]
      omega
    · intro i hi
      have hr : i < rrl.length := hlen ▸ hi
      rw [anonymize_list_getElem_of_ne anon texts rrl i hne hi hr, hE]
      simp

/-- C3 (witness): the shape theorem applied at a two-element value sequence
with no span collections. -/
theorem anonymize_list_shape_witness :
    (anonymize_list (fun s _ => s) [Value.str "hi", Value.int 2] []).length = 2 ∧
    ∀ i : Nat, i < 2 →
      (anonymize_list (fun s _ => s) [Value.str "hi", Value.int 2] [])[i]? =
        some (anonymize_leaf (fun s _ => s)
          ([Value.str "hi", Value.int 2].getD i Value.null)
          (if ([] : List (List RecognizerResult)).isEmpty then []
            else ([] : List (List RecognizerResult)).getD i [])) :=
  anonymize_list_shape (fun s _ => s) [Value.str "hi", Value.int 2] [] (Or.inl rfl)

/-- C4: for an input whose node keys are pairwise distinct,
`anonymize_dict` produces an association list whose key sequence equals the
node key sequence (same key set and same insertion order) with no duplicate
keys, and every node's key is bound to the transform of that node's value. -/
theorem anonymize_dict_keys_order (anon : String → List RecognizerResult → String)
    (nodes : List DictAnalyzerResult)
    (h : (nodes.map DictAnalyzerResult.key).Nodup) :
    (anonymize_dict anon nodes).map Prod.fst = nodes.map DictAnalyzerResult.key
    ∧ ((anonymize_dict anon nodes).map Prod.fst).Nodup
    ∧ ∀ r ∈ nodes, (r.key, anonymize_node_value anon r) ∈ anonymize_dict anon nodes := by
  have h1 : (anonymize_dict anon nodes).map Prod.fst = nodes.map DictAnalyzerResult.key := by
    rw [anonymize_dict_eq_map, List.map_map]
    rfl
  refine ⟨h1, by rw [h1]; exact h, ?_⟩
  intro r hr
  rw [anonymize_dict_eq_map]
  exact List.mem_map_of_mem _ hr

/-- C4 (witness): the key-order theorem applied at two nodes with distinct
keys. -/
theorem anonymize_dict_keys_order_witness :
    (anonymize_dict (fun s _ => s)
        [DictAnalyzerResult.mk "a" (Value.int 1) (AnalyzerResults.spans []),
         DictAnalyzerResult.mk "b" (Value.str "x") (AnalyzerResults.spans [])]).map Prod.fst =
      [DictAnalyzerResult.mk "a" (Value.int 1) (AnalyzerResults.spans []),
       DictAnalyzerResult.mk "b" (Value.str "x") (AnalyzerResults.spans [])].map
        DictAnalyzerResult.key
    ∧ ((anonymize_dict (fun s _ => s)
        [DictAnalyzerResult.mk "a" (Value.int 1) (AnalyzerResults.spans []),
         DictAnalyzerResult.mk "b" (Value.str "x") (AnalyzerResults.spans [])]).map Prod.fst).Nodup
    ∧ ∀ r ∈ [DictAnalyzerResult.mk "a" (Value.int 1) (AnalyzerResults.spans []),
         DictAnalyzerResult.mk "b" (Value.str "x") (AnalyzerResults.spans [])],
        (r.key, anonymize_node_value (fun s _ => s) r) ∈
          anonymize_dict (fun s _ => s)
            [DictAnalyzerResult.mk "a" (Value.int 1) (AnalyzerResults.spans []),
             DictAnalyzerResult.mk "b" (Value.str "x") (AnalyzerResults.spans [])] :=
  anonymize_dict_keys_order (fun s _ => s) _ (by simp [DictAnalyzerResult.key])

/-- C5: a node whose value is a nested mapping is processed by recursing
into the node's nested detection results, and the recursively anonymized
mapping (not a flattened structure) is stored under the node's key, at the
node's position in the output. -/
theorem nested_dict_recursion (anon : String → List RecognizerResult → String)
    (pre : List DictAnalyzerResult) (key : String) (d : List (String × Value))
    (sub rest : List DictAnalyzerResult) :
    (anonymize_dict anon
        (pre ++ DictAnalyzerResult.mk key (Value.dict d) (AnalyzerResults.nested sub) :: rest))[
      pre.length]? = some (key, Value.dict (anonymize_dict anon sub)) := by
  rw [anonymize_dict_eq_map, List.map_append]
  rw [List.getElem?_append_right (by simp)]
  simp [anonymize_node_value, DictAnalyzerResult.key]

/-- C6: dispatch order in `anonymize_dict`: a mapping value always takes the
recursive branch; a string value is passed whole to the single-text
anonymizer and the stored result is one string; the stored result for a
string node is never a list of per-character results. -/
theorem dict_dispatch_order (anon : String → List RecognizerResult → String) :
    (∀ key d sub rest,
      anonymize_dict anon
          (DictAnalyzerResult.mk key (Value.dict d) (AnalyzerResults.nested sub) :: rest) =
        (key, Value.dict (anonymize_dict anon sub)) :: anonymize_dict anon rest)
    ∧ (∀ key s rr rest,
      anonymize_dict anon (DictAnalyzerResult.mk key (Value.str s) rr :: rest) =
        (key, Value.str (anon s rr.asSpans)) :: anonymize_dict anon rest)
    ∧ (∀ key s rr rest ys,
      ((anonymize_dict anon (DictAnalyzerResult.mk key (Value.str s) rr :: rest)).head?.map
        Prod.snd) ≠ some (Value.list ys)) := by
  refine ⟨fun key d sub rest => by simp [anonymize_dict],
    fun key s rr rest => by simp [anonymize_dict], ?_⟩
  intro key s rr rest ys
  simp [anonymize_dict]

/-- C7: if no span collections were supplied, or the supplied ones align
with the values and are all empty, and the external anonymizer is the
identity on an empty span collection, then every string leaf comes out of
`anonymize_list` unchanged. -/
theorem no_detections_strings_unchanged (anon : String → List RecognizerResult → String)
    (texts : List Value) (rrl : List (List RecognizerResult))
    (hid : ∀ s, anon s [] = s)
    (h : rrl = [] ∨ (rrl.length = texts.length ∧ ∀ rs ∈ rrl, rs = [])) :
    ∀ (i : Nat) (s : String), i < texts.length → texts[i]? = some (Value.str s) →
      (anonymize_list anon texts rrl)[i]? = some (Value.str s) := by
  intro i s hi hs
  have hgd : texts.getD i Value.null = Value.str s := by
    simp [List.getD, hs]
  rcases eq_or_ne rrl [] with he | hne
  · subst he
    rw [anonymize_list_getElem_of_empty anon texts i hi, hgd]
    simp [anonymize_leaf, pyStr, hid]
  · rcases h with h | ⟨hlen, hall⟩
    · exact absurd h hne
    · have hr : i < rrl.length := hlen ▸ hi
      rw [anonymize_list_getElem_of_ne anon texts rrl i hne hi hr, hgd]
      rw [List.getD_eq_getElem _ _ hr, hall _ (rrl.getElem_mem hr)]
      simp [anonymize_leaf, pyStr, hid]

/-- C7 (witness): the no-detections theorem applied at a single string leaf
with no span collections and the identity anonymizer. -/
theorem no_detections_strings_unchanged_witness :
    (anonymize_list (fun s _ => s) [Value.str "a"] [])[0]? = some (Value.str "a") :=
  no_detections_strings_unchanged (fun s _ => s) [Value.str "a"] []
    (fun _ => rfl) (Or.inl rfl) 0 "a" (by decide) rfl

/-- C8: fail-fast propagation: if the external anonymizer raises on some
leaf processed by `anonymize_list` (resp. reached by `anonymize_dict`,
directly or through nesting), the whole call evaluates to `Except.error e`
where `e` was raised by the anonymizer on one of those leaves — and in
particular no `.ok` (partial) result is returned to the caller. -/
theorem fail_fast_propagation {ε : Type u}
    (anonE : String → List RecognizerResult → Except ε String)
    (texts : List Value) (rrl : List (List RecognizerResult))
    (nodes : List DictAnalyzerResult) :
    (listOk anonE texts rrl = false →
      ∃ e, anonymize_listE anonE texts rrl = Except.error e ∧
        listRaises anonE e texts rrl)
    ∧ (dictOk anonE nodes = false →
      ∃ e, anonymize_dictE anonE nodes = Except.error e ∧
        dictRaises anonE e nodes) :=
  ⟨anonymize_listE_of_fail anonE texts rrl, anonymize_dictE_of_fail anonE nodes⟩

/-- C8 (witness): the fail-fast theorem applied with an always-raising
anonymizer, at one string leaf for the list call and one string node for the
dict call. -/
theorem fail_fast_propagation_witness :
    (∃ e, anonymize_listE (fun _ _ => Except.error (0 : Nat))
        [Value.str "x"] [] = Except.error e ∧
      listRaises (fun _ _ => Except.error (0 : Nat)) e [Value.str "x"] [])
    ∧ (∃ e, anonymize_dictE (fun _ _ => Except.error (0 : Nat))
        [DictAnalyzerResult.mk "k" (Value.str "s") (AnalyzerResults.spans [])] =
          Except.error e ∧
      dictRaises (fun _ _ => Except.error (0 : Nat)) e
        [DictAnalyzerResult.mk "k" (Value.str "s") (AnalyzerResults.spans [])]) :=
  ⟨(fail_fast_propagation (fun _ _ => Except.error (0 : Nat)) [Value.str "x"] []
      [DictAnalyzerResult.mk "k" (Value.str "s") (AnalyzerResults.spans [])]).1 rfl,
   (fail_fast_propagation (fun _ _ => Except.error (0 : Nat)) [Value.str "x"] []
      [DictAnalyzerResult.mk "k" (Value.str "s") (AnalyzerResults.spans [])]).2
    (by simp [dictOk, AnalyzerResults.asSpans])⟩

/-- C9: a call with a non-empty span-collection sequence of a different
length returns normally (here: `ok` of the pure result whenever the external
anonymizer does not raise), and the result has `min` of the two lengths many
elements, each kept position derived from the input elements at the same
position — the excess elements of the longer input are dropped. -/
theorem mismatch_truncates_to_min {ε : Type u}
    (anon : String → List RecognizerResult → String)
    (texts : List Value) (rrl : List (List RecognizerResult)) (hne : rrl ≠ []) :
    anonymize_listE (ε := ε) (fun s rs => Except.ok (anon s rs)) texts rrl =
      Except.ok (anonymize_list anon texts rrl)
    ∧ (anonymize_list anon texts rrl).length = min texts.length rrl.length
    ∧ ∀ i : Nat, i < min texts.length rrl.length →
        (anonymize_list anon texts rrl)[i]? =
          some (anonymize_leaf anon (texts.getD i Value.null) (rrl.getD i [])) := by
  refine ⟨anonymize_listE_pure anon texts rrl,
    anonymize_list_length_of_ne anon texts rrl hne, ?_⟩
  intro i hi
  have hit : i < texts.length := lt_of_lt_of_le hi (min_le_left _ _)
  have hir : i < rrl.length := lt_of_lt_of_le hi (min_le_right _ _)
  exact anonymize_list_getElem_of_ne anon texts rrl i hne hit hir

/-- C9 (witness): the truncation theorem applied at two texts against one
span collection. -/
theorem mismatch_truncates_to_min_witness :
    anonymize_listE (ε := Unit) (fun s rs => Except.ok ((fun s _ => s) s rs))
      [Value.str "a", Value.str "b"] [[]] =
      Except.ok (anonymize_list (fun s _ => s) [Value.str "a", Value.str "b"] [[]])
    ∧ (anonymize_list (fun s _ => s) [Value.str "a", Value.str "b"] [[]]).length = min 2 1
    ∧ ∀ i : Nat, i < min 2 1 →
        (anonymize_list (fun s _ => s) [Value.str "a", Value.str "b"] [[]])[i]? =
          some (anonymize_leaf (fun s _ => s)
            ([Value.str "a", Value.str "b"].getD i Value.null)
            (([[]] : List (List RecognizerResult)).getD i [])) :=
  mismatch_truncates_to_min (fun s _ => s) [Value.str "a", Value.str "b"] [[]] (by simp)

/-- C10: a node whose value is a generic iterable — a list or a set — is
delegated to `anonymize_list` and the result stored under the node's key is
a *list*, even when the input container was a set; the stored value is never
a set. -/
theorem iterable_branch_stores_list (anon : String → List RecognizerResult → String)
    (key : String) (xs : List Value) (rr : AnalyzerResults)
    (rest : List DictAnalyzerResult) :
    anonymize_dict anon (DictAnalyzerResult.mk key (Value.set xs) rr :: rest) =
      (key, Value.list (anonymize_list anon xs rr.asSpansList)) :: anonymize_dict anon rest
    ∧ anonymize_dict anon (DictAnalyzerResult.mk key (Value.list xs) rr :: rest) =
      (key, Value.list (anonymize_list anon xs rr.asSpansList)) :: anonymize_dict anon rest
    ∧ ∀ ys, Value.list (anonymize_list anon xs rr.asSpansList) ≠ Value.set ys := by
  refine ⟨by simp [anonymize_dict], by simp [anonymize_dict], ?_⟩
  intro ys h
  exact Value.noConfusion h

end Presidio
